import Mathlib

/-!
Verification development for the `scrapers-ca` consistency-checking engine
(`tasks.py`).  The Python functions `slug`, `type_id`,
`province_or_territory_abbreviation`, `get_definition`,
`module_name_to_metadata` and the duplicate-identifier portion of the `tidy`
task are shallowly embedded as executable Lean definitions.  Strings are
Lean `String`s; Python exceptions are modelled with `Except String`;
the module-level memo caches (the province-abbreviation map built from
`country-ca.csv` and the census type-name map built from remote HTML tables)
are modelled as explicit parameters, since they are data loaded from outside
the source tree.
-/

namespace ScrapersCa

/-- Model of Python `str.lower` restricted to the characters appearing in
this development: ASCII letters plus the accented Latin letters used by
Canadian division names.  Other characters are left unchanged. -/
def pyLower (c : Char) : Char :=
  if 'A' ≤ c ∧ c ≤ 'Z' then Char.ofNat (c.toNat + 32)
  else match c with
  | 'À' => 'à' | 'Â' => 'â' | 'Ä' => 'ä' | 'É' => 'é' | 'È' => 'è' | 'Ê' => 'ê' | 'Ë' => 'ë'
  | 'Î' => 'î' | 'Ï' => 'ï' | 'Ô' => 'ô' | 'Ö' => 'ö' | 'Û' => 'û' | 'Ü' => 'ü' | 'Ù' => 'ù'
  | 'Ç' => 'ç' | 'Œ' => 'œ'
  | _ => c

/-- Model of Python `str.upper` on a single character (used by
`str.capitalize`), restricted to the same character set as `pyLower`. -/
def pyUpper (c : Char) : Char :=
  if 'a' ≤ c ∧ c ≤ 'z' then Char.ofNat (c.toNat - 32)
  else match c with
  | 'à' => 'À' | 'â' => 'Â' | 'ä' => 'Ä' | 'é' => 'É' | 'è' => 'È' | 'ê' => 'Ê' | 'ë' => 'Ë'
  | 'î' => 'Î' | 'ï' => 'Ï' | 'ô' => 'Ô' | 'ö' => 'Ö' | 'û' => 'Û' | 'ü' => 'Ü' | 'ù' => 'Ù'
  | 'ç' => 'Ç' | 'œ' => 'Œ'
  | _ => c

/-- Model of the translation table of `slug` (tasks.py lines 61-70): space,
apostrophe, dash, em-dash and en-dash become an underscore; a period is
deleted; every other character is kept. -/
def pyTranslateChar (c : Char) : Option Char :=
  match c with
  | ' ' => some '_'
  | '\x27' => some '_'
  | '-' => some '_'
  | '—' => some '_'
  | '–' => some '_'
  | '.' => none
  | c => some c

/-- Model of `unidecode` on one character, for the characters used in this
development.  ASCII characters map to themselves; the listed accented Latin
letters, typographic quotes, the ellipsis and the two long dashes map to
their documented `unidecode` transliterations; any other character maps to
the empty string (the behaviour of `unidecode` on unmapped code points). -/
def uniChar (c : Char) : String :=
  if c.toNat < 128 then String.mk [c]
  else match c with
  | 'à' => "a" | 'â' => "a" | 'ä' => "a" | 'é' => "e" | 'è' => "e" | 'ê' => "e" | 'ë' => "e"
  | 'î' => "i" | 'ï' => "i" | 'ô' => "o" | 'ö' => "o" | 'û' => "u" | 'ü' => "u" | 'ù' => "u"
  | 'ç' => "c" | 'œ' => "oe"
  | 'À' => "A" | 'Â' => "A" | 'Ä' => "A" | 'É' => "E" | 'È' => "E" | 'Ê' => "E" | 'Ë' => "E"
  | 'Î' => "I" | 'Ï' => "I" | 'Ô' => "O" | 'Ö' => "O" | 'Û' => "U" | 'Ü' => "U" | 'Ù' => "U"
  | 'Ç' => "C" | 'Œ' => "OE"
  | '’' => "\x27" | '‘' => "\x27"
  | '…' => "..."
  | '—' => "--" | '–' => "-"
  | _ => ""

/-- Python `str.lower` over a whole string. -/
def pyLowerStr (s : String) : String := String.mk (s.data.map pyLower)

/-- Python `str.translate` with the table of `slug`, over a whole string. -/
def pyTranslateStr (s : String) : String := String.mk (s.data.filterMap pyTranslateChar)

/-- Model of `unidecode` over a whole string. -/
def uniString (s : String) : String :=
  String.mk ((s.data.map fun c => (uniChar c).data).flatten)

/-- Embedding of `slug` (tasks.py lines 54-71): lower-case, translate
spaces/apostrophes/dashes to underscores and drop periods, then
transliterate to ASCII. -/
def slug (name : String) : String := uniString (pyTranslateStr (pyLowerStr name))

/-- Per-character action of `slug`; the three stages of `slug` are all
character-wise, so `slug` is the concatenation of `slugChar` over the
characters of its input (`slug_data` below). -/
def slugChar (c : Char) : List Char :=
  match pyTranslateChar (pyLower c) with
  | some d => (uniChar d).data
  | none => []

/-- Concatenation of `slugChar` over a character list. -/
def slugList (l : List Char) : List Char := (l.map slugChar).flatten

/-- A character is slug-stable when every character produced by its
slugification is a fixed point of slugification.  All ASCII characters and
all accented letters mapping to plain ASCII letters are slug-stable; the
typographic apostrophe and the ellipsis are not. -/
def slugStable (c : Char) : Bool := (slugChar c).all fun d => slugChar d == [d]

/-- Embedding of `type_id` (tasks.py lines 82-86): `id.rsplit(":", 1)[1]`,
the segment after the last colon; raises `IndexError` (modelled as an
`Except.error`) when the identifier contains no colon. -/
def type_id (id : String) : Except String String :=
  if id.data.contains ':' then
    .ok (String.mk ((id.data.reverse.takeWhile fun c => !(c == ':')).reverse))
  else .error "IndexError"

/-- Model of a row of the OCD division registry (`country-ca.csv`), as the
code consumes it: `_type` is modelled as `dtype`, `parent` carries the parent
identifier and name (the only parent attributes the code reads), and `url`
and `sgc` stand for `division.attrs["url"]` and `division.attrs["sgc"]`. -/
structure Division where
  dtype : String
  id : String
  name : String
  parent : Option (String × String)
  url : String
  sgc : String
deriving DecidableEq

/-- Python dict lookup `m[k]` over an association list: the first binding of
the key, if any. -/
def dictLookup (k : String) : List (String × String) → Option String
  | [] => none
  | p :: m => if p.1 = k then some p.2 else dictLookup k m

/-- Python dict assignment `m[k] = v`: overwrite the value in place when the
key is present, append the binding otherwise. -/
def memoInsert (k v : String) (m : List (String × String)) : List (String × String) :=
  if m.any (fun p => p.1 = k) then m.map (fun p => if p.1 = k then (k, v) else p)
  else m ++ [(k, v)]

/-- Construction of `province_or_territory_abbreviation_memo` (tasks.py
lines 75-78): walk the registry and, for each province or territory, map its
`sgc` code to the type id of its OCD identifier. -/
def buildMemoAux (memo : List (String × String)) : List Division → Except String (List (String × String))
  | [] => .ok memo
  | d :: rest =>
    if d.dtype = "province" ∨ d.dtype = "territory" then
      match type_id d.id with
      | .error e => .error e
      | .ok t => buildMemoAux (memoInsert d.sgc t memo) rest
    else buildMemoAux memo rest

/-- Province-abbreviation memo built from a registry. -/
def buildMemo (reg : List Division) : Except String (List (String × String)) :=
  buildMemoAux [] reg

/-- Embedding of `province_or_territory_abbreviation` (tasks.py lines 74-79):
build the memo from the registry, then look up the first two characters of
the type id of `code`; a missing key is a Python `KeyError` (a
`LookupError`).  The registry, read from `country-ca.csv`, is an explicit
parameter; memoization only caches this pure computation. -/
def province_or_territory_abbreviation (reg : List Division) (code : String) : Except String String :=
  match buildMemo reg with
  | .error e => .error e
  | .ok memo =>
    match type_id code with
    | .error e => .error e
    | .ok t =>
      match dictLookup (t.take 2) memo with
      | some a => .ok a
      | none => .error "KeyError"

/-- Python dict subscription `m[k]` for the census type-name map: `KeyError`
when the key is absent. -/
def dictGet (m : List (String × String)) (k : String) : Except String String :=
  match dictLookup k m with
  | some v => .ok v
  | none => .error "KeyError"

/-- Vowel tuple of `get_definition` (tasks.py line 123). -/
def vowels : List Char := ['A', 'À', 'E', 'É', 'I', 'Î', 'O', 'Ô', 'U']

/-- Splitter for `re.split("[ -]", s)`: split on every matching character,
keeping empty segments (so the result is never the empty list). -/
def splitOnPred (p : Char → Bool) : List Char → List (List Char)
  | [] => [[]]
  | c :: cs =>
    if p c then [] :: splitOnPred p cs
    else match splitOnPred p cs with
      | [] => [[c]]
      | w :: ws => (c :: w) :: ws

/-- Model of `re.sub("['.]", "", name)`: delete apostrophes and periods. -/
def stripAposPeriod (l : List Char) : List Char :=
  l.filter fun c => !(c == '\x27' || c == '.')

/-- Model of `re.sub("[—–]", "-", s)`: replace the em-dash and the en-dash
with a plain dash. -/
def dashNormalize (l : List Char) : List Char :=
  l.map fun c => if c == '—' || c == '–' then '-' else c

/-- Model of `re.match("[A-Z]", word)`: the word starts with an ASCII
upper-case letter. -/
def startsAsciiUpper : List Char → Bool
  | [] => false
  | c :: _ => decide ('A' ≤ c ∧ c ≤ 'Z')

/-- Model of Python `str.capitalize`: upper-case the first character,
lower-case the rest. -/
def pyCapitalizeW : List Char → List Char
  | [] => []
  | c :: cs => pyUpper c :: cs.map pyLower

/-- Embedding of the class-name computation of `get_definition` (tasks.py
lines 184-190): delete apostrophes and periods, normalize long dashes,
split on spaces and dashes, capitalize each word unless it starts with an
ASCII upper-case letter, join, transliterate, and append "Municipalities"
when aggregating. -/
def get_class_name (name : String) (aggregation : Bool) : String :=
  let parts := splitOnPred (fun c => c == ' ' || c == '-') (dashNormalize (stripAposPeriod name.data))
  let cn := uniString (String.mk ((parts.map fun w => if startsAsciiUpper w then w else pyCapitalizeW w).flatten))
  if aggregation then cn ++ "Municipalities" else cn

/-- Expected-configuration record returned by `get_definition`. -/
structure Expected where
  module_name : String
  name : String
  class_name : String
  url : String
  division_name : String
deriving DecidableEq

/-- Module-name and body-name branch of `get_definition` (tasks.py lines
126-182), one case per `division._type`; `t` is `ocd_type_id`
(`type_id(division.id)`), `typeNames` models `ocdid_to_type_name_map`
(built from the remote census tables), and `reg` is the division registry
consulted by `province_or_territory_abbreviation`.  Unknown types raise,
as does indexing an empty name or touching the parent of a parentless
arrondissement. -/
def moduleAndName (reg : List Division) (typeNames : List (String × String))
    (division : Division) (aggregation : Bool) (t : String) : Except String (String × String) :=
  if division.dtype = "country" then
    .ok ("ca", "Parliament of Canada")
  else if division.dtype = "province" ∨ division.dtype = "territory" then
    let mn := if aggregation then "ca_" ++ t ++ "_municipalities" else "ca_" ++ t
    let nm :=
      if aggregation then division.name ++ " Municipalities"
      else if t = "nl" ∨ t = "ns" then division.name ++ " House of Assembly"
      else if t = "qc" then "Assemblée nationale du Québec"
      else "Legislative Assembly of " ++ division.name
    .ok (mn, nm)
  else if division.dtype = "cd" then
    match province_or_territory_abbreviation reg division.id with
    | .error e => .error e
    | .ok a =>
      match dictGet typeNames division.id with
      | .error e => .error e
      | .ok tn =>
        let tn := if tn = "Regional municipality" then "Regional" else tn
        .ok ("ca_" ++ a ++ "_" ++ slug division.name, division.name ++ " " ++ tn ++ " Council")
  else if division.dtype = "csd" then
    match province_or_territory_abbreviation reg division.id with
    | .error e => .error e
    | .ok a =>
      let mn := "ca_" ++ a ++ "_" ++ slug division.name
      if t.take 2 = "24" then
        match division.name.data with
        | [] => .error "IndexError"
        | c :: _ =>
          if vowels.contains c then .ok (mn, "Conseil municipal d\x27" ++ division.name)
          else .ok (mn, "Conseil municipal de " ++ division.name)
      else
        match dictGet typeNames division.id with
        | .error e => .error e
        | .ok tn =>
          let tn :=
            if tn = "Municipality" ∨ tn = "Specialized municipality" then "Municipal"
            else if tn = "District municipality" then "District"
            else if tn = "Regional municipality" then "Regional"
            else tn
          .ok (mn, division.name ++ " " ++ tn ++ " Council")
  else if division.dtype = "arrondissement" then
    match division.parent with
    | none => .error "AttributeError"
    | some par =>
      match province_or_territory_abbreviation reg par.1 with
      | .error e => .error e
      | .ok a =>
        let mn := "ca_" ++ a ++ "_" ++ slug par.2 ++ "_" ++ slug division.name
        match division.name.data with
        | [] => .error "IndexError"
        | c :: _ =>
          if vowels.contains c then .ok (mn, "Conseil d\x27arrondissement d\x27" ++ division.name)
          else if division.name.take 3 = "Le " then
            .ok (mn, "Conseil d\x27arrondissement du " ++ division.name.drop 3)
          else .ok (mn, "Conseil d\x27arrondissement de " ++ division.name)
  else .error ("Unrecognized OCD type " ++ division.dtype)

/-- Embedding of `get_definition` (tasks.py lines 89-198).  `Division.get`
is modelled by passing the division record itself; the two memo caches are
explicit parameters.  The expected record carries the branch-dependent
module name and body name, the class name computed from the division name
and the aggregation flag, the registry url, and the division name. -/
def get_definition (reg : List Division) (typeNames : List (String × String))
    (division : Division) (aggregation : Bool) : Except String Expected :=
  match type_id division.id with
  | .error e => .error e
  | .ok t =>
    match moduleAndName reg typeNames division aggregation t with
    | .error e => .error e
    | .ok mn => .ok ⟨mn.1, mn.2, get_class_name division.name aggregation, division.url, division.name⟩

/-- Model of a Python object declared in a module, as
`module_name_to_metadata` inspects it: `obj_name` is `obj.__name__`, each
other field is the attribute of the same name (`none` when the attribute is
absent). -/
structure PyObj where
  obj_name : String
  division_id : Option String
  division_name : Option String
  name : Option String
  url : Option String
  classification : Option String
deriving DecidableEq

/-- Observed-metadata record produced by `module_name_to_metadata`. -/
structure Metadata where
  class_name : String
  division_id : String
  division_name : Option String
  name : Option String
  url : Option String
  classification : Option String
  jurisdiction_id : String
deriving DecidableEq

/-- Metadata dictionary built for the first object carrying a truthy
`division_id` (tasks.py lines 435-446). -/
def mkMetadata (o : PyObj) (div_id : String) : Metadata :=
  ⟨o.obj_name, div_id, o.division_name, o.name, o.url, o.classification,
    (div_id.replace "ocd-division" "ocd-jurisdiction") ++ "/" ++ o.classification.getD "legislature"⟩

/-- Embedding of `module_name_to_metadata` (tasks.py lines 427-446): scan
the module objects in order and return the metadata of the first one whose
`division_id` attribute is truthy (present and non-empty); when no object
qualifies the loop falls through and the function returns Python `None`,
modelled as `Option.none` — it does not raise. -/
def module_name_to_metadata : List PyObj → Option Metadata
  | [] => none
  | o :: rest =>
    match o.division_id with
    | some s => if s ≠ "" then some (mkMetadata o s) else module_name_to_metadata rest
    | none => module_name_to_metadata rest

/-- Findings printed by the duplicate-identifier checks of `tidy`
(tasks.py lines 318-330). -/
inductive Finding where
  | dupDivision (module_name : String) (division_id : String)
  | dupJurisdiction (module_name : String) (jurisdiction_id : String)
deriving DecidableEq

/-- State threaded through the `tidy` loop: the `division_ids` and
`jurisdiction_ids` sets, and the findings printed so far. -/
structure TState where
  divIds : List String
  jurIds : List String
  findings : List Finding
deriving DecidableEq

/-- Body of the `tidy` loop for one module (tasks.py lines 318-330): report
a duplicate `division_id` for this module when the identifier was already
seen, otherwise record it; then do the same for the `jurisdiction_id`. -/
def tidyStep (s : TState) (module_name : String) (md : Metadata) : TState :=
  let s1 : TState :=
    if s.divIds.contains md.division_id then
      ⟨s.divIds, s.jurIds, s.findings ++ [Finding.dupDivision module_name md.division_id]⟩
    else ⟨md.division_id :: s.divIds, s.jurIds, s.findings⟩
  if s1.jurIds.contains md.jurisdiction_id then
    ⟨s1.divIds, s1.jurIds, s1.findings ++ [Finding.dupJurisdiction module_name md.jurisdiction_id]⟩
  else ⟨s1.divIds, md.jurisdiction_id :: s1.jurIds, s1.findings⟩

/-- Duplicate-identifier findings of `tidy` over the (module name, observed
metadata) pairs that survive the suffix filter, in iteration order, starting
from empty identifier sets. -/
def tidyFold (modules : List (String × Metadata)) : List Finding :=
  (modules.foldl (fun s m => tidyStep s m.1 m.2) ⟨[], [], []⟩).findings

/-- Suffix filter of `tidy` (tasks.py line 313): candidate-list and
municipality roll-up modules are skipped. -/
def skipModule (module_name : String) : Bool :=
  module_name.endsWith "_candidates" || module_name.endsWith "_municipalities"

/-- Module names that reach the body of the `tidy` loop. -/
def keptModuleNames (names : List String) : List String :=
  names.filter fun n => !skipModule n

/-- Aggregation argument passed by `tidy` to `get_definition`
(tasks.py line 332): `bool(module_name.endswith("_municipalities"))`. -/
def tidyAggregation (module_name : String) : Bool :=
  module_name.endsWith "_municipalities"

/-- Duplicate-identifier portion of `tidy` (tasks.py lines 310-330) over a
module set given as (module name, declared objects) pairs: drop skipped
modules, extract observed metadata (a module without metadata makes the
subscription `metadata["division_id"]` raise, modelled as an error), and
fold the duplicate checks. -/
def tidy_duplicate_findings (modules : List (String × List PyObj)) : Except String (List Finding) :=
  match (modules.filter fun m => !skipModule m.1).mapM
      (fun m => match module_name_to_metadata m.2 with
        | some md => Except.ok (m.1, md)
        | none => Except.error "TypeError") with
  | .error e => .error e
  | .ok mds => .ok (tidyFold mds)

/-! Helper lemmas shared by the claims about `get_definition`. -/

/-- Inversion for a successful `get_definition`: it decomposes into a
successful `type_id` and a successful `moduleAndName`, and the expected
record is assembled from their results. -/
theorem get_definition_ok_elim {reg : List Division} {tns : List (String × String)}
    {d : Division} {agg : Bool} {e : Expected}
    (h : get_definition reg tns d agg = .ok e) :
    ∃ t mn, type_id d.id = .ok t ∧ moduleAndName reg tns d agg t = .ok mn ∧
      e = ⟨mn.1, mn.2, get_class_name d.name agg, d.url, d.name⟩ := by
  unfold get_definition at h
  split at h
  · cases h
  · rename_i t htid
    split at h
    · cases h
    · rename_i mn hmn
      cases h
      exact ⟨t, mn, htid, hmn, rfl⟩

/-- Reduction of `moduleAndName` on the province/territory branch with the
aggregation flag set. -/
theorem moduleAndName_province_true (reg : List Division) (tns : List (String × String))
    (d : Division) (t : String)
    (h : d.dtype = "province" ∨ d.dtype = "territory") :
    moduleAndName reg tns d true t =
      .ok ("ca_" ++ t ++ "_municipalities", d.name ++ " Municipalities") := by
  have hc : d.dtype ≠ "country" := by rcases h with h | h <;> simp [h]
  unfold moduleAndName
  rw [if_neg hc, if_pos h]
  rfl

/-- Reduction of `moduleAndName` on the province/territory branch with the
aggregation flag clear. -/
theorem moduleAndName_province_false (reg : List Division) (tns : List (String × String))
    (d : Division) (t : String)
    (h : d.dtype = "province" ∨ d.dtype = "territory") :
    moduleAndName reg tns d false t =
      .ok ("ca_" ++ t,
        if t = "nl" ∨ t = "ns" then d.name ++ " House of Assembly"
        else if t = "qc" then "Assemblée nationale du Québec"
        else "Legislative Assembly of " ++ d.name) := by
  have hc : d.dtype ≠ "country" := by rcases h with h | h <;> simp [h]
  unfold moduleAndName
  rw [if_neg hc, if_pos h]
  rfl

/-- Division used in counterexamples and witnesses: the country itself. -/
def countryDiv : Division := ⟨"country", "ocd-division/country:ca", "Canada", none, "", ""⟩

/-- Division used in witnesses: Newfoundland and Labrador. -/
def nlDiv : Division :=
  ⟨"province", "ocd-division/country:ca/province:nl", "Newfoundland and Labrador", none, "", "10"⟩

/-- C1, counterexample.  For the `country` division the module name derived
with the aggregation flag set is "ca", not "ca" plus "_municipalities":
the suffix relation claimed for every division fails outside the
province/territory branch. -/
theorem module_name_aggregation_counterexample :
    ((get_definition [] [] countryDiv true).toOption.map Expected.module_name = some "ca")
    ∧ ((get_definition [] [] countryDiv false).toOption.map
        (fun e => e.module_name ++ "_municipalities") = some "ca_municipalities")
    ∧ ("ca" : String) ≠ "ca_municipalities" :=
  ⟨rfl, rfl, by decide⟩

/-- C1, amended.  For every division of type province or territory, the
module name derived with the aggregation flag set equals the module name
derived without it plus the suffix "_municipalities". -/
theorem module_name_aggregation (reg : List Division) (tns : List (String × String))
    (d : Division) (h : d.dtype = "province" ∨ d.dtype = "territory")
    (e e' : Expected)
    (ht : get_definition reg tns d true = .ok e)
    (hf : get_definition reg tns d false = .ok e') :
    e.module_name = e'.module_name ++ "_municipalities" := by
  obtain ⟨t, mn, h1, h2, he⟩ := get_definition_ok_elim ht
  obtain ⟨t', mn', h1', h2', he'⟩ := get_definition_ok_elim hf
  rw [h1] at h1'
  injection h1' with h1'
  subst h1'
  rw [moduleAndName_province_true reg tns d t h] at h2
  rw [moduleAndName_province_false reg tns d t h] at h2'
  injection h2 with h2
  injection h2' with h2'
  subst h2 h2' he he'
  rfl

/-- Witness for the amended C1, at Newfoundland and Labrador. -/
theorem module_name_aggregation_witness :
    ∃ e e' : Expected, get_definition [] [] nlDiv true = .ok e
      ∧ get_definition [] [] nlDiv false = .ok e'
      ∧ e.module_name = e'.module_name ++ "_municipalities" := by
  refine ⟨⟨"ca_nl_municipalities", "Newfoundland and Labrador Municipalities",
      "NewfoundlandAndLabradorMunicipalities", "", "Newfoundland and Labrador"⟩,
    ⟨"ca_nl", "Newfoundland and Labrador House of Assembly",
      "NewfoundlandAndLabrador", "", "Newfoundland and Labrador"⟩, rfl, rfl, ?_⟩
  exact module_name_aggregation [] [] nlDiv (Or.inl rfl) _ _ rfl rfl

/-- C6.  For a province or territory division, with aggregation off the body
name is "{name} House of Assembly" when the type id is nl or ns (and hence
ends with "House of Assembly"), the fixed French name for qc, and
"Legislative Assembly of {name}" otherwise; with aggregation on it is
"{name} Municipalities". -/
theorem province_name_rules (reg : List Division) (tns : List (String × String))
    (d : Division) (h : d.dtype = "province" ∨ d.dtype = "territory") :
    (∀ t e, type_id d.id = .ok t → get_definition reg tns d false = .ok e →
      ((t = "nl" ∨ t = "ns") →
        e.name = d.name ++ " House of Assembly" ∧ ∃ p, e.name = p ++ "House of Assembly")
      ∧ (t = "qc" → e.name = "Assemblée nationale du Québec")
      ∧ (t ≠ "nl" → t ≠ "ns" → t ≠ "qc" → e.name = "Legislative Assembly of " ++ d.name))
    ∧ (∀ e, get_definition reg tns d true = .ok e → e.name = d.name ++ " Municipalities") := by
  constructor
  · intro t e htid hgd
    obtain ⟨t', mn, h1, h2, he⟩ := get_definition_ok_elim hgd
    rw [htid] at h1
    injection h1 with h1
    subst h1
    rw [moduleAndName_province_false reg tns d t h] at h2
    injection h2 with h2
    subst h2 he
    refine ⟨fun hns => ⟨?_, d.name ++ " ", ?_⟩, fun hqc => ?_, fun n1 n2 n3 => ?_⟩
    · show (if t = "nl" ∨ t = "ns" then d.name ++ " House of Assembly"
        else if t = "qc" then "Assemblée nationale du Québec"
        else "Legislative Assembly of " ++ d.name) = d.name ++ " House of Assembly"
      rw [if_pos hns]
    · show (if t = "nl" ∨ t = "ns" then d.name ++ " House of Assembly"
        else if t = "qc" then "Assemblée nationale du Québec"
        else "Legislative Assembly of " ++ d.name) = (d.name ++ " ") ++ "House of Assembly"
      rw [if_pos hns, String.append_assoc]
      rfl
    · show (if t = "nl" ∨ t = "ns" then d.name ++ " House of Assembly"
        else if t = "qc" then "Assemblée nationale du Québec"
        else "Legislative Assembly of " ++ d.name) = "Assemblée nationale du Québec"
      subst hqc
      rw [if_neg (by decide), if_pos rfl]
    · show (if t = "nl" ∨ t = "ns" then d.name ++ " House of Assembly"
        else if t = "qc" then "Assemblée nationale du Québec"
        else "Legislative Assembly of " ++ d.name) = "Legislative Assembly of " ++ d.name
      rw [if_neg (by simp [n1, n2]), if_neg n3]
  · intro e hgd
    obtain ⟨t, mn, h1, h2, he⟩ := get_definition_ok_elim hgd
    rw [moduleAndName_province_true reg tns d t h] at h2
    injection h2 with h2
    subst h2 he
    rfl

/-- Witness for C6, at Newfoundland and Labrador. -/
theorem province_name_rules_witness :
    ∃ e : Expected, get_definition [] [] nlDiv false = .ok e
      ∧ e.name = nlDiv.name ++ " House of Assembly"
      ∧ ∃ p, e.name = p ++ "House of Assembly" := by
  refine ⟨⟨"ca_nl", "Newfoundland and Labrador House of Assembly",
      "NewfoundlandAndLabrador", "", "Newfoundland and Labrador"⟩, rfl, ?_⟩
  exact (province_name_rules [] [] nlDiv (Or.inl rfl)).1 "nl" _ rfl rfl |>.1 (Or.inl rfl)

/-- Object with no `division_id` attribute, used for C3. -/
def objNoDivId : PyObj := ⟨"Foo", none, none, none, none, none⟩

/-- Object whose `division_id` attribute is the empty (falsy) string. -/
def objBlankDivId : PyObj := ⟨"Bar", some "", none, none, none, none⟩

/-- Truthiness of the `division_id` attribute as tested by
`module_name_to_metadata`: present and non-empty. -/
def truthyDivId (o : PyObj) : Bool :=
  match o.division_id with
  | some s => decide (s ≠ "")
  | none => false

/-- C3, counterexample.  Applied to a module whose only object has no
`division_id` attribute, `module_name_to_metadata` falls off the end of its
loop and returns Python `None` (modelled `Option.none`) — a normal return
value, not a `NotFoundError`: the source contains no raise at all. -/
theorem module_metadata_no_division_id_counterexample :
    module_name_to_metadata [objNoDivId] = none := rfl

/-- C3, amended.  Applied to a module none of whose declared objects has a
truthy `division_id` attribute, `module_name_to_metadata` returns `None`
(it does not raise). -/
theorem module_metadata_no_division_id (objs : List PyObj)
    (h : ∀ o ∈ objs, truthyDivId o = false) :
    module_name_to_metadata objs = none := by
  induction objs with
  | nil => rfl
  | cons o rest ih =>
    have ho := h o (List.mem_cons_self o rest)
    have hr : ∀ x ∈ rest, truthyDivId x = false := fun x hx => h x (List.mem_cons_of_mem _ hx)
    unfold module_name_to_metadata
    cases hid : o.division_id with
    | none => exact ih hr
    | some s =>
      have hs : s = "" := by
        unfold truthyDivId at ho
        rw [hid] at ho
        simpa using ho
      subst hs
      exact ih hr

/-- Witness for the amended C3: a module with an attribute-less object and an
empty-string `division_id` object yields `None`. -/
theorem module_metadata_no_division_id_witness :
    module_name_to_metadata [objNoDivId, objBlankDivId] = none :=
  module_metadata_no_division_id [objNoDivId, objBlankDivId] (by decide)

/-- C10.  Every module name that survives the suffix filter of `tidy` is
passed `false` as the aggregation argument of `get_definition`: the flag is
`module_name.endswith("_municipalities")`, and such modules were skipped. -/
theorem tidy_aggregation_false (names : List String) (n : String)
    (h : n ∈ keptModuleNames names) : tidyAggregation n = false := by
  have h2 := (List.mem_filter.mp h).2
  simp only [skipModule, Bool.not_eq_true', Bool.or_eq_false_iff] at h2
  exact h2.2

/-- Witness for C10 on a concrete module list. -/
theorem tidy_aggregation_false_witness : tidyAggregation "ca_ns" = false :=
  tidy_aggregation_false ["ca_ns", "ca_ns_municipalities", "ca_ns_candidates"] "ca_ns" (by decide)


/-- Evaluation of `moduleAndName` on the csd branch when
`province_or_territory_abbreviation` raises. -/
theorem moduleAndName_csd_errabbrev {reg : List Division} {tns : List (String × String)}
    {d : Division} {agg : Bool} {t : String} {m : String}
    (h : d.dtype = "csd") (ha : province_or_territory_abbreviation reg d.id = .error m) :
    moduleAndName reg tns d agg t = .error m := by
  unfold moduleAndName
  rw [if_neg (by simp [h]), if_neg (by simp [h]), if_neg (by simp [h]), if_pos h, ha]

/-- Evaluation of `moduleAndName` on the Québec csd branch. -/
theorem moduleAndName_csd_24 {reg : List Division} {tns : List (String × String)}
    {d : Division} {agg : Bool} {t : String} {a : String} {c : Char} {cs : List Char}
    (h : d.dtype = "csd") (ha : province_or_territory_abbreviation reg d.id = .ok a)
    (h24 : t.take 2 = "24") (hname : d.name.data = c :: cs) :
    moduleAndName reg tns d agg t =
      if vowels.contains c then
        .ok ("ca_" ++ a ++ "_" ++ slug d.name, "Conseil municipal d\x27" ++ d.name)
      else
        .ok ("ca_" ++ a ++ "_" ++ slug d.name, "Conseil municipal de " ++ d.name) := by
  unfold moduleAndName
  rw [if_neg (by simp [h]), if_neg (by simp [h]), if_neg (by simp [h]), if_pos h, ha, h24, hname]
  rfl

/-- C7.  For a csd division whose type-id two-character province code is
"24" and whose name starts with character `c`, the derived body name starts
with "Conseil municipal", and is "Conseil municipal d\x27{name}" when `c` is
in the vowel tuple and "Conseil municipal de {name}" otherwise. -/
theorem csd_quebec_name (reg : List Division) (tns : List (String × String))
    (d : Division) (agg : Bool) (h : d.dtype = "csd") :
    ∀ t e c cs, type_id d.id = .ok t → t.take 2 = "24" → d.name.data = c :: cs →
      get_definition reg tns d agg = .ok e →
      (∃ s, e.name = "Conseil municipal" ++ s)
      ∧ (vowels.contains c = true → e.name = "Conseil municipal d\x27" ++ d.name)
      ∧ (vowels.contains c = false → e.name = "Conseil municipal de " ++ d.name) := by
  intro t e c cs htid h24 hname hgd
  obtain ⟨t2, mn, h1, h2, he⟩ := get_definition_ok_elim hgd
  rw [htid] at h1
  injection h1 with h1
  subst h1
  cases ha : province_or_territory_abbreviation reg d.id with
  | error m => rw [moduleAndName_csd_errabbrev h ha] at h2; cases h2
  | ok a =>
    rw [moduleAndName_csd_24 h ha h24 hname] at h2
    by_cases hv : vowels.contains c = true
    · rw [if_pos hv] at h2
      injection h2 with h2
      subst h2 he
      refine ⟨⟨" d\x27" ++ d.name, ?_⟩, fun _ => rfl, fun hv2 => absurd hv (by rw [hv2]; decide)⟩
      dsimp only
      rw [← String.append_assoc]
      rfl
    · rw [if_neg hv] at h2
      injection h2 with h2
      subst h2 he
      refine ⟨⟨" de " ++ d.name, ?_⟩, fun hv2 => absurd hv2 hv, fun _ => rfl⟩
      dsimp only
      rw [← String.append_assoc]
      rfl

/-- Division used in witnesses: the province of Québec (sgc code 24). -/
def qcProvDiv : Division :=
  ⟨"province", "ocd-division/country:ca/province:qc", "Québec", none, "", "24"⟩

/-- Division used in witnesses: the csd of Québec City. -/
def qcCityDiv : Division :=
  ⟨"csd", "ocd-division/country:ca/csd:2423027", "Québec", none, "", ""⟩

/-- Witness for C7, at the csd of Québec City (name starting with a
non-vowel). -/
theorem csd_quebec_name_witness :
    ∃ e : Expected, get_definition [qcProvDiv] [] qcCityDiv false = .ok e
      ∧ e.name = "Conseil municipal de Québec"
      ∧ ∃ s, e.name = "Conseil municipal" ++ s := by
  refine ⟨⟨"ca_qc_quebec", "Conseil municipal de Québec", "Quebec", "", "Québec"⟩, rfl, ?_, ?_⟩
  · exact (csd_quebec_name [qcProvDiv] [] qcCityDiv false rfl "2423027" _ 'Q' _
      rfl rfl rfl rfl).2.2 rfl
  · exact (csd_quebec_name [qcProvDiv] [] qcCityDiv false rfl "2423027" _ 'Q' _
      rfl rfl rfl rfl).1

/-- Evaluation of `moduleAndName` on the arrondissement branch when the
division has no parent. -/
theorem moduleAndName_arr_noparent {reg : List Division} {tns : List (String × String)}
    {d : Division} {agg : Bool} {t : String}
    (h : d.dtype = "arrondissement") (hp : d.parent = none) :
    moduleAndName reg tns d agg t = .error "AttributeError" := by
  unfold moduleAndName
  rw [if_neg (by simp [h]), if_neg (by simp [h]), if_neg (by simp [h]), if_neg (by simp [h]),
    if_pos h, hp]

/-- Evaluation of `moduleAndName` on the arrondissement branch when
`province_or_territory_abbreviation` raises on the parent identifier. -/
theorem moduleAndName_arr_errabbrev {reg : List Division} {tns : List (String × String)}
    {d : Division} {agg : Bool} {t : String} {par : String × String} {m : String}
    (h : d.dtype = "arrondissement") (hp : d.parent = some par)
    (ha : province_or_territory_abbreviation reg par.1 = .error m) :
    moduleAndName reg tns d agg t = .error m := by
  unfold moduleAndName
  rw [if_neg (by simp [h]), if_neg (by simp [h]), if_neg (by simp [h]), if_neg (by simp [h]),
    if_pos h, hp]
  dsimp only
  rw [ha]

/-- Evaluation of `moduleAndName` on the arrondissement branch. -/
theorem moduleAndName_arr {reg : List Division} {tns : List (String × String)}
    {d : Division} {agg : Bool} {t : String} {par : String × String} {a : String}
    {c : Char} {cs : List Char}
    (h : d.dtype = "arrondissement") (hp : d.parent = some par)
    (ha : province_or_territory_abbreviation reg par.1 = .ok a) (hname : d.name.data = c :: cs) :
    moduleAndName reg tns d agg t =
      if vowels.contains c then
        .ok ("ca_" ++ a ++ "_" ++ slug par.2 ++ "_" ++ slug d.name,
          "Conseil d\x27arrondissement d\x27" ++ d.name)
      else if d.name.take 3 = "Le " then
        .ok ("ca_" ++ a ++ "_" ++ slug par.2 ++ "_" ++ slug d.name,
          "Conseil d\x27arrondissement du " ++ d.name.drop 3)
      else
        .ok ("ca_" ++ a ++ "_" ++ slug par.2 ++ "_" ++ slug d.name,
          "Conseil d\x27arrondissement de " ++ d.name) := by
  unfold moduleAndName
  rw [if_neg (by simp [h]), if_neg (by simp [h]), if_neg (by simp [h]), if_neg (by simp [h]),
    if_pos h, hp]
  dsimp only
  rw [ha, hname]

/-- C8.  For an arrondissement division whose name starts with character
`c`, the derived body name is "Conseil d\x27arrondissement d\x27{name}" when
`c` is in the vowel tuple, "Conseil d\x27arrondissement du {name minus the
leading Le }" when the name starts with "Le ", and
"Conseil d\x27arrondissement de {name}" otherwise. -/
theorem arrondissement_name_rules (reg : List Division) (tns : List (String × String))
    (d : Division) (agg : Bool) (h : d.dtype = "arrondissement") :
    ∀ e c cs, get_definition reg tns d agg = .ok e → d.name.data = c :: cs →
      (vowels.contains c = true → e.name = "Conseil d\x27arrondissement d\x27" ++ d.name)
      ∧ (vowels.contains c = false → d.name.take 3 = "Le " →
          e.name = "Conseil d\x27arrondissement du " ++ d.name.drop 3)
      ∧ (vowels.contains c = false → d.name.take 3 ≠ "Le " →
          e.name = "Conseil d\x27arrondissement de " ++ d.name) := by
  intro e c cs hgd hname
  obtain ⟨t, mn, h1, h2, he⟩ := get_definition_ok_elim hgd
  cases hp : d.parent with
  | none => rw [moduleAndName_arr_noparent h hp] at h2; cases h2
  | some par =>
    cases ha : province_or_territory_abbreviation reg par.1 with
    | error m => rw [moduleAndName_arr_errabbrev h hp ha] at h2; cases h2
    | ok a =>
      rw [moduleAndName_arr h hp ha hname] at h2
      refine ⟨fun hv => ?_, fun hv hle => ?_, fun hv hle => ?_⟩
      · rw [if_pos hv] at h2
        injection h2 with h2
        subst h2 he
        rfl
      · rw [if_neg (by rw [hv]; decide), if_pos hle] at h2
        injection h2 with h2
        subst h2 he
        rfl
      · rw [if_neg (by rw [hv]; decide), if_neg hle] at h2
        injection h2 with h2
        subst h2 he
        rfl

/-- Division used in witnesses: the Plateau-Mont-Royal arrondissement of
Montréal. -/
def plateauDiv : Division :=
  ⟨"arrondissement",
    "ocd-division/country:ca/csd:2466023/arrondissement:le_plateau-mont-royal",
    "Le Plateau-Mont-Royal",
    some ("ocd-division/country:ca/csd:2466023", "Montréal"), "", ""⟩

/-- Witness for C8, at Le Plateau-Mont-Royal: a name starting with "Le "
yields the "du" template with the leading "Le " stripped. -/
theorem arrondissement_name_rules_witness :
    ∃ e : Expected, get_definition [qcProvDiv] [] plateauDiv false = .ok e
      ∧ e.name = "Conseil d\x27arrondissement du Plateau-Mont-Royal" := by
  refine ⟨⟨"ca_qc_montreal_le_plateau_mont_royal",
    "Conseil d\x27arrondissement du Plateau-Mont-Royal",
    "LePlateauMontRoyal", "", "Le Plateau-Mont-Royal"⟩, rfl, ?_⟩
  exact (arrondissement_name_rules [qcProvDiv] [] plateauDiv false rfl _
    'L' _ rfl rfl).2.1 rfl rfl


/-- Fusion of the three character-wise stages of `slug` into `slugList`. -/
theorem slugList_eq (l : List Char) :
    (((l.map pyLower).filterMap pyTranslateChar).map (fun c => (uniChar c).data)).flatten
      = slugList l := by
  induction l with
  | nil => rfl
  | cons c l ih =>
    simp only [List.map_cons, List.filterMap_cons]
    cases htr : pyTranslateChar (pyLower c) with
    | none =>
      have hc : slugChar c = [] := by unfold slugChar; rw [htr]
      show _ = slugList (c :: l)
      have : slugList (c :: l) = slugChar c ++ slugList l := rfl
      rw [this, hc, ih]
      rfl
    | some d =>
      have hc : slugChar c = (uniChar d).data := by unfold slugChar; rw [htr]
      show (((uniChar d).data :: ((l.map pyLower).filterMap pyTranslateChar).map
          (fun c => (uniChar c).data)).flatten) = slugList (c :: l)
      have h2 : slugList (c :: l) = slugChar c ++ slugList l := rfl
      rw [List.flatten_cons, ih, h2, hc]

/-- Expression of `slug` through `slugList`. -/
theorem slug_eq_slugList (s : String) : slug s = String.mk (slugList s.data) := by
  unfold slug uniString pyTranslateStr pyLowerStr
  exact congrArg String.mk (slugList_eq s.data)

/-- Homomorphism of `slugList` over append. -/
theorem slugList_append (l1 l2 : List Char) :
    slugList (l1 ++ l2) = slugList l1 ++ slugList l2 := by
  unfold slugList
  rw [List.map_append, List.flatten_append]

/-- A list of slug-fixed characters is a fixed point of `slugList`. -/
theorem slugList_fixed (l : List Char) (h : ∀ d ∈ l, slugChar d = [d]) :
    slugList l = l := by
  induction l with
  | nil => rfl
  | cons c l ih =>
    show slugChar c ++ slugList l = c :: l
    rw [h c (List.mem_cons_self c l), ih (fun d hd => h d (List.mem_cons_of_mem _ hd))]
    rfl

/-- Idempotence of `slugList` on lists of slug-stable characters. -/
theorem slugList_idem (l : List Char) (h : l.all slugStable = true) :
    slugList (slugList l) = slugList l := by
  induction l with
  | nil => rfl
  | cons c l ih =>
    rw [List.all_cons, Bool.and_eq_true] at h
    have hfix : ∀ d ∈ slugChar c, slugChar d = [d] := by
      intro d hd
      have := List.all_eq_true.mp h.1 d hd
      exact eq_of_beq this
    show slugList (slugChar c ++ slugList l) = slugChar c ++ slugList l
    rw [slugList_append, slugList_fixed (slugChar c) hfix, ih h.2]

/-- C2, counterexample.  The typographic apostrophe (U+2019) survives the
translation table untouched and is transliterated by `unidecode` to the
ASCII apostrophe, which a second `slug` pass then turns into an underscore:
`slug` is not idempotent on every string. -/
theorem slug_idempotent_counterexample : slug (slug "’") ≠ slug "’" := by decide

/-- C2, amended.  `slug` is idempotent on every string all of whose
characters are slug-stable — every character its slugification produces is
itself a fixed point of slugification.  This covers all strings of ASCII
characters and of accented letters transliterated to plain letters, but not
characters such as the typographic apostrophe whose transliteration
reintroduces a character the translation table acts on. -/
theorem slug_idempotent (x : String) (h : x.data.all slugStable = true) :
    slug (slug x) = slug x := by
  rw [slug_eq_slugList x, slug_eq_slugList (String.mk (slugList x.data))]
  exact congrArg String.mk (slugList_idem x.data h)

/-- Witness for the amended C2, on a string with an accented letter. -/
theorem slug_idempotent_witness :
    ("Montréal".data.all slugStable = true) ∧ slug (slug "Montréal") = slug "Montréal" :=
  ⟨by decide, slug_idempotent "Montréal" (by decide)⟩


/-- When no binding carries key `k`, `dictLookup k` finds nothing. -/
theorem dictLookup_notmem {k : String} {m : List (String × String)}
    (h : (m.any fun p => p.1 = k) = false) : dictLookup k m = none := by
  induction m with
  | nil => rfl
  | cons p m ih =>
    rw [List.any_cons, Bool.or_eq_false_iff] at h
    have h1 : ¬(p.1 = k) := by simpa using h.1
    unfold dictLookup
    rw [if_neg h1]
    exact ih h.2

/-- Lookup after the in-place overwrite of key `k`. -/
theorem dictLookup_mapReplace (k v k2 : String) (m : List (String × String)) :
    dictLookup k2 (m.map fun p => if p.1 = k then (k, v) else p)
      = if k = k2 then (if m.any (fun p => p.1 = k) then some v else none)
        else dictLookup k2 m := by
  induction m with
  | nil => simp [dictLookup]
  | cons p m ih =>
    simp only [List.map_cons, List.any_cons]
    by_cases hp : p.1 = k
    · by_cases hk : k = k2
      · subst hk
        rw [if_pos hp]
        simp [dictLookup, hp]
      · have hpk2 : ¬(p.1 = k2) := fun hh => hk (hp.symm.trans hh)
        rw [if_pos hp]
        simp [dictLookup, hk, hpk2, ih]
    · by_cases hk2 : p.1 = k2
      · have hkk : ¬(k = k2) := fun hh => hp (hk2.trans hh.symm)
        rw [if_neg hp]
        simp [dictLookup, hk2, hkk]
      · rw [if_neg hp]
        simp only [dictLookup, hk2, if_false, ih, decide_eq_false hp, Bool.false_or]

/-- Lookup after appending a single binding. -/
theorem dictLookup_appendSingle (k v k2 : String) (m : List (String × String)) :
    dictLookup k2 (m ++ [(k, v)]) =
      match dictLookup k2 m with
      | some w => some w
      | none => if k = k2 then some v else none := by
  induction m with
  | nil =>
    show (if k = k2 then some v else dictLookup k2 []) = _
    rfl
  | cons p m ih =>
    show (if p.1 = k2 then some p.2 else dictLookup k2 (m ++ [(k, v)])) = _
    by_cases hk2 : p.1 = k2
    · simp [dictLookup, hk2]
    · rw [if_neg hk2, ih]
      show _ = (match (if p.1 = k2 then some p.2 else dictLookup k2 m) with
        | some w => some w
        | none => if k = k2 then some v else none)
      rw [if_neg hk2]

/-- Lookup through a Python dict assignment. -/
theorem dictLookup_memoInsert (k v k2 : String) (m : List (String × String)) :
    dictLookup k2 (memoInsert k v m) = if k = k2 then some v else dictLookup k2 m := by
  unfold memoInsert
  by_cases hany : (m.any fun p => p.1 = k) = true
  · rw [if_pos hany, dictLookup_mapReplace]
    by_cases hk : k = k2
    · rw [if_pos hk, if_pos hk, if_pos hany]
    · rw [if_neg hk, if_neg hk]
  · rw [if_neg hany, dictLookup_appendSingle]
    by_cases hk : k = k2
    · have h0 : dictLookup k2 m = none := by
        rw [← hk]
        exact dictLookup_notmem (Bool.eq_false_iff.mpr hany)
      rw [h0, if_pos hk]
    · cases h0 : dictLookup k2 m with
      | some w => simp [hk]
      | none => simp [hk]

/-- Provenance of the bindings of the province-abbreviation memo: a
successful lookup comes from the initial memo or from a province/territory
row of the registry whose sgc code is the key and whose type id is the
value. -/
theorem buildMemoAux_lookup (reg : List Division) :
    ∀ memo0 memo k a, buildMemoAux memo0 reg = .ok memo → dictLookup k memo = some a →
      dictLookup k memo0 = some a
      ∨ ∃ d, d ∈ reg ∧ (d.dtype = "province" ∨ d.dtype = "territory")
          ∧ d.sgc = k ∧ type_id d.id = .ok a := by
  induction reg with
  | nil =>
    intro memo0 memo k a hb hl
    injection hb with hb
    subst hb
    exact Or.inl hl
  | cons d rest ih =>
    intro memo0 memo k a hb hl
    unfold buildMemoAux at hb
    by_cases hd : d.dtype = "province" ∨ d.dtype = "territory"
    · rw [if_pos hd] at hb
      cases htid : type_id d.id with
      | error m => rw [htid] at hb; cases hb
      | ok t =>
        rw [htid] at hb
        rcases ih (memoInsert d.sgc t memo0) memo k a hb hl with hc | ⟨d2, hmem, hh⟩
        · rw [dictLookup_memoInsert] at hc
          by_cases hk : d.sgc = k
          · rw [if_pos hk] at hc
            injection hc with hc
            subst hc
            exact Or.inr ⟨d, List.mem_cons_self d rest, hd, hk, htid⟩
          · rw [if_neg hk] at hc
            exact Or.inl hc
        · exact Or.inr ⟨d2, List.mem_cons_of_mem d hmem, hh⟩
    · rw [if_neg hd] at hb
      rcases ih memo0 memo k a hb hl with hc | ⟨d2, hmem, hh⟩
      · exact Or.inl hc
      · exact Or.inr ⟨d2, List.mem_cons_of_mem d hmem, hh⟩

/-- A registry without province or territory rows leaves the memo as it
started. -/
theorem buildMemoAux_no_provterr (reg : List Division)
    (h : ∀ d ∈ reg, ¬(d.dtype = "province" ∨ d.dtype = "territory")) :
    ∀ memo0, buildMemoAux memo0 reg = .ok memo0 := by
  induction reg with
  | nil => intro m0; rfl
  | cons d rest ih =>
    intro m0
    unfold buildMemoAux
    rw [if_neg (h d (List.mem_cons_self d rest))]
    exact ih (fun x hx => h x (List.mem_cons_of_mem _ hx)) m0

/-- C4, counterexample.  `province_or_territory_abbreviation` returns the
two-letter type-id string of the matching province ("qc"), which is not a
Division — it is not even the identifier of any division of the registry:
the claim that the function returns a province/territory Division is false. -/
theorem resolve_province_code_counterexample :
    province_or_territory_abbreviation [qcProvDiv] "ocd-division/country:ca/csd:2423027"
      = .ok "qc"
    ∧ ∀ d ∈ [qcProvDiv], d.id ≠ "qc" :=
  ⟨rfl, by decide⟩

/-- C4, amended.  `province_or_territory_abbreviation` maps the first two
characters of the type id of a statistical code to the two-letter type-id
abbreviation (a string, not a Division) of the province/territory of the
registry whose sgc code equals those two characters; it fails with a
`LookupError` when the registry holds no province/territory entries while
building the map, or when the two-character key is absent from the built
map. -/
theorem resolve_province_code_amended (reg : List Division) (code : String) :
    ((∀ d ∈ reg, ¬(d.dtype = "province" ∨ d.dtype = "territory")) →
        (province_or_territory_abbreviation reg code).isOk = false)
    ∧ (∀ memo t, buildMemo reg = .ok memo → type_id code = .ok t →
        (dictLookup (t.take 2) memo = none →
            province_or_territory_abbreviation reg code = .error "KeyError")
        ∧ (∀ a, dictLookup (t.take 2) memo = some a →
            province_or_territory_abbreviation reg code = .ok a
            ∧ ∃ d, d ∈ reg ∧ (d.dtype = "province" ∨ d.dtype = "territory")
                ∧ d.sgc = t.take 2 ∧ type_id d.id = .ok a)) := by
  constructor
  · intro hno
    unfold province_or_territory_abbreviation
    have hb : buildMemo reg = .ok [] := buildMemoAux_no_provterr reg hno []
    rw [hb]
    dsimp only
    cases htid : type_id code with
    | error m => rfl
    | ok t => rfl
  · intro memo t hb htid
    unfold province_or_territory_abbreviation
    rw [hb]
    dsimp only
    rw [htid]
    dsimp only
    constructor
    · intro hnone
      rw [hnone]
    · intro a hsome
      rw [hsome]
      refine ⟨rfl, ?_⟩
      rcases buildMemoAux_lookup reg [] memo (t.take 2) a hb hsome with hc | hex
      · cases hc
      · exact hex

/-- Witness for the amended C4: the csd code of Québec City resolves against
a one-province registry to the abbreviation "qc", contributed by the Québec
province row. -/
theorem resolve_province_code_witness :
    province_or_territory_abbreviation [qcProvDiv] "ocd-division/country:ca/csd:2423027"
      = .ok "qc"
    ∧ ∃ d, d ∈ [qcProvDiv] ∧ (d.dtype = "province" ∨ d.dtype = "territory")
        ∧ d.sgc = "24" ∧ type_id d.id = .ok "qc" := by
  have h := (resolve_province_code_amended [qcProvDiv]
    "ocd-division/country:ca/csd:2423027").2 [("24", "qc")] "2423027" rfl rfl
  have h2 := h.2 "qc" rfl
  exact ⟨h2.1, h2.2⟩


/-- Predicate picking out the duplicate-division findings for identifier
`v`. -/
def isDupDivisionFor (v : String) (f : Finding) : Bool :=
  match f with
  | .dupDivision _ w => w == v
  | _ => false

/-- Predicate picking out the duplicate-jurisdiction findings for identifier
`v`. -/
def isDupJurisdictionFor (v : String) (f : Finding) : Bool :=
  match f with
  | .dupJurisdiction _ w => w == v
  | _ => false

/-- The `division_ids` set after one `tidy` step. -/
theorem tidyStep_divIds (s : TState) (nm : String) (md : Metadata) :
    (tidyStep s nm md).divIds =
      if s.divIds.contains md.division_id then s.divIds
      else md.division_id :: s.divIds := by
  unfold tidyStep
  by_cases hd : s.divIds.contains md.division_id = true
  · rw [if_pos hd, if_pos hd]
    dsimp only
    split <;> rfl
  · rw [if_neg hd, if_neg hd]
    dsimp only
    split <;> rfl

/-- The `jurisdiction_ids` set after one `tidy` step. -/
theorem tidyStep_jurIds (s : TState) (nm : String) (md : Metadata) :
    (tidyStep s nm md).jurIds =
      if s.jurIds.contains md.jurisdiction_id then s.jurIds
      else md.jurisdiction_id :: s.jurIds := by
  unfold tidyStep
  by_cases hd : s.divIds.contains md.division_id = true
  · rw [if_pos hd]
    dsimp only
    by_cases hj : s.jurIds.contains md.jurisdiction_id = true
    · rw [if_pos hj, if_pos hj]
    · rw [if_neg hj, if_neg hj]
  · rw [if_neg hd]
    dsimp only
    by_cases hj : s.jurIds.contains md.jurisdiction_id = true
    · rw [if_pos hj, if_pos hj]
    · rw [if_neg hj, if_neg hj]

/-- Duplicate-division findings for `v` after one `tidy` step: the step
appends exactly one such finding when the division id was already seen and
equals `v`. -/
theorem tidyStep_filter_div (v : String) (s : TState) (nm : String) (md : Metadata) :
    (tidyStep s nm md).findings.filter (isDupDivisionFor v)
      = s.findings.filter (isDupDivisionFor v)
        ++ (if s.divIds.contains md.division_id = true ∧ md.division_id = v
            then [Finding.dupDivision nm md.division_id] else []) := by
  unfold tidyStep
  by_cases hd : s.divIds.contains md.division_id = true
  · rw [if_pos hd]
    dsimp only
    by_cases hj : s.jurIds.contains md.jurisdiction_id = true
    · rw [if_pos hj]
      dsimp only
      rw [List.filter_append, List.filter_append]
      by_cases hv : md.division_id = v
      · rw [if_pos ⟨hd, hv⟩]
        simp [isDupDivisionFor, hv]
      · rw [if_neg (show ¬(s.divIds.contains md.division_id = true ∧ md.division_id = v) from
          fun hh => hv hh.2)]
        simp [isDupDivisionFor, hv]
    · rw [if_neg hj]
      dsimp only
      rw [List.filter_append]
      by_cases hv : md.division_id = v
      · rw [if_pos ⟨hd, hv⟩]
        simp [isDupDivisionFor, hv]
      · rw [if_neg (show ¬(s.divIds.contains md.division_id = true ∧ md.division_id = v) from
          fun hh => hv hh.2)]
        simp [isDupDivisionFor, hv]
  · rw [if_neg hd]
    dsimp only
    by_cases hj : s.jurIds.contains md.jurisdiction_id = true
    · rw [if_pos hj]
      dsimp only
      rw [List.filter_append,
        if_neg (show ¬(s.divIds.contains md.division_id = true ∧ md.division_id = v) from
          fun hh => hd hh.1)]
      simp [isDupDivisionFor]
    · rw [if_neg hj]
      dsimp only
      rw [if_neg (show ¬(s.divIds.contains md.division_id = true ∧ md.division_id = v) from
          fun hh => hd hh.1)]
      simp

/-- Duplicate-jurisdiction findings for `v` after one `tidy` step. -/
theorem tidyStep_filter_jur (v : String) (s : TState) (nm : String) (md : Metadata) :
    (tidyStep s nm md).findings.filter (isDupJurisdictionFor v)
      = s.findings.filter (isDupJurisdictionFor v)
        ++ (if s.jurIds.contains md.jurisdiction_id = true ∧ md.jurisdiction_id = v
            then [Finding.dupJurisdiction nm md.jurisdiction_id] else []) := by
  unfold tidyStep
  by_cases hd : s.divIds.contains md.division_id = true
  · rw [if_pos hd]
    dsimp only
    by_cases hj : s.jurIds.contains md.jurisdiction_id = true
    · rw [if_pos hj]
      dsimp only
      rw [List.filter_append, List.filter_append]
      by_cases hv : md.jurisdiction_id = v
      · rw [if_pos ⟨hj, hv⟩]
        simp [isDupJurisdictionFor, hv]
      · rw [if_neg (show ¬(s.jurIds.contains md.jurisdiction_id = true ∧ md.jurisdiction_id = v)
          from fun hh => hv hh.2)]
        simp [isDupJurisdictionFor, hv]
    · rw [if_neg hj]
      dsimp only
      rw [List.filter_append,
        if_neg (show ¬(s.jurIds.contains md.jurisdiction_id = true ∧ md.jurisdiction_id = v)
          from fun hh => hj hh.1)]
      simp [isDupJurisdictionFor]
  · rw [if_neg hd]
    dsimp only
    by_cases hj : s.jurIds.contains md.jurisdiction_id = true
    · rw [if_pos hj]
      dsimp only
      rw [List.filter_append]
      by_cases hv : md.jurisdiction_id = v
      · rw [if_pos ⟨hj, hv⟩]
        simp [isDupJurisdictionFor, hv]
      · rw [if_neg (show ¬(s.jurIds.contains md.jurisdiction_id = true ∧ md.jurisdiction_id = v)
          from fun hh => hv hh.2)]
        simp [isDupJurisdictionFor, hv]
    · rw [if_neg hj]
      dsimp only
      rw [if_neg (show ¬(s.jurIds.contains md.jurisdiction_id = true ∧ md.jurisdiction_id = v)
          from fun hh => hj hh.1)]
      simp

/-- Folding the `tidy` loop over modules whose division id is never `v`
changes neither the duplicate-division findings for `v` nor whether `v` is
in the `division_ids` set. -/
theorem foldl_filter_div_none (v : String) :
    ∀ (l : List (String × Metadata)) (s : TState), (∀ p ∈ l, p.2.division_id ≠ v) →
      ((l.foldl (fun s m => tidyStep s m.1 m.2) s).findings.filter (isDupDivisionFor v)
        = s.findings.filter (isDupDivisionFor v))
      ∧ ((l.foldl (fun s m => tidyStep s m.1 m.2) s).divIds.contains v
        = s.divIds.contains v) := by
  intro l
  induction l with
  | nil => intro s h; exact ⟨rfl, rfl⟩
  | cons p l ih =>
    intro s h
    have hp : p.2.division_id ≠ v := h p (List.mem_cons_self p l)
    simp only [List.foldl_cons]
    obtain ⟨ih1, ih2⟩ := ih (tidyStep s p.1 p.2) (fun x hx => h x (List.mem_cons_of_mem _ hx))
    refine ⟨?_, ?_⟩
    · rw [ih1, tidyStep_filter_div, if_neg (fun hh => hp hh.2)]
      simp
    · rw [ih2, tidyStep_divIds]
      by_cases hc : s.divIds.contains p.2.division_id = true
      · rw [if_pos hc]
      · rw [if_neg hc, List.contains_cons, beq_false_of_ne (fun hh => hp hh.symm), Bool.false_or]

/-- Mirror of `foldl_filter_div_none` for jurisdiction identifiers. -/
theorem foldl_filter_jur_none (v : String) :
    ∀ (l : List (String × Metadata)) (s : TState), (∀ p ∈ l, p.2.jurisdiction_id ≠ v) →
      ((l.foldl (fun s m => tidyStep s m.1 m.2) s).findings.filter (isDupJurisdictionFor v)
        = s.findings.filter (isDupJurisdictionFor v))
      ∧ ((l.foldl (fun s m => tidyStep s m.1 m.2) s).jurIds.contains v
        = s.jurIds.contains v) := by
  intro l
  induction l with
  | nil => intro s h; exact ⟨rfl, rfl⟩
  | cons p l ih =>
    intro s h
    have hp : p.2.jurisdiction_id ≠ v := h p (List.mem_cons_self p l)
    simp only [List.foldl_cons]
    obtain ⟨ih1, ih2⟩ := ih (tidyStep s p.1 p.2) (fun x hx => h x (List.mem_cons_of_mem _ hx))
    refine ⟨?_, ?_⟩
    · rw [ih1, tidyStep_filter_jur, if_neg (fun hh => hp hh.2)]
      simp
    · rw [ih2, tidyStep_jurIds]
      by_cases hc : s.jurIds.contains p.2.jurisdiction_id = true
      · rw [if_pos hc]
      · rw [if_neg hc, List.contains_cons, beq_false_of_ne (fun hh => hp hh.symm), Bool.false_or]

/-- Division half of the duplicate-reporting property of `tidy`. -/
theorem tidy_dup_div_aux (v : String) (l1 l2 l3 : List (String × Metadata))
    (n1 n2 : String) (md1 md2 : Metadata)
    (h1 : md1.division_id = v) (h2 : md2.division_id = v)
    (hno1 : ∀ p ∈ l1, p.2.division_id ≠ v) (hno2 : ∀ p ∈ l2, p.2.division_id ≠ v)
    (hno3 : ∀ p ∈ l3, p.2.division_id ≠ v) :
    (tidyFold (l1 ++ (n1, md1) :: l2 ++ (n2, md2) :: l3)).filter (isDupDivisionFor v)
      = [Finding.dupDivision n2 v] := by
  unfold tidyFold
  rw [List.foldl_append, List.foldl_cons, List.foldl_append, List.foldl_cons]
  dsimp only
  obtain ⟨fA, cA⟩ := foldl_filter_div_none v l1 (⟨[], [], []⟩ : TState) hno1
  have fA0 : (List.foldl (fun s m => tidyStep s m.1 m.2) (⟨[], [], []⟩ : TState) l1).findings.filter (isDupDivisionFor v) = [] := by
    rw [fA]
    rfl
  have cA0 : (List.foldl (fun s m => tidyStep s m.1 m.2) (⟨[], [], []⟩ : TState) l1).divIds.contains v = false := by
    rw [cA]
    rfl
  have fB : (tidyStep (List.foldl (fun s m => tidyStep s m.1 m.2) (⟨[], [], []⟩ : TState) l1) n1 md1).findings.filter (isDupDivisionFor v) = [] := by
    rw [tidyStep_filter_div, fA0, if_neg]
    · rfl
    · rintro ⟨hc, -⟩
      rw [h1, cA0] at hc
      cases hc
  have cB : (tidyStep (List.foldl (fun s m => tidyStep s m.1 m.2) (⟨[], [], []⟩ : TState) l1) n1 md1).divIds.contains v = true := by
    rw [tidyStep_divIds, if_neg (by rw [h1, cA0]; decide), h1, List.contains_cons]
    simp
  obtain ⟨fC, cC⟩ := foldl_filter_div_none v l2 (tidyStep (List.foldl (fun s m => tidyStep s m.1 m.2) (⟨[], [], []⟩ : TState) l1) n1 md1) hno2
  have fC0 : (List.foldl (fun s m => tidyStep s m.1 m.2) (tidyStep (List.foldl (fun s m => tidyStep s m.1 m.2) (⟨[], [], []⟩ : TState) l1) n1 md1) l2).findings.filter (isDupDivisionFor v) = [] := fC.trans fB
  have cC0 : (List.foldl (fun s m => tidyStep s m.1 m.2) (tidyStep (List.foldl (fun s m => tidyStep s m.1 m.2) (⟨[], [], []⟩ : TState) l1) n1 md1) l2).divIds.contains v = true := cC.trans cB
  have fD : (tidyStep (List.foldl (fun s m => tidyStep s m.1 m.2) (tidyStep (List.foldl (fun s m => tidyStep s m.1 m.2) (⟨[], [], []⟩ : TState) l1) n1 md1) l2) n2 md2).findings.filter (isDupDivisionFor v) = [Finding.dupDivision n2 v] := by
    rw [tidyStep_filter_div, fC0, if_pos ⟨by rw [h2]; exact cC0, h2⟩, h2]
    rfl
  obtain ⟨fE, -⟩ := foldl_filter_div_none v l3 (tidyStep (List.foldl (fun s m => tidyStep s m.1 m.2) (tidyStep (List.foldl (fun s m => tidyStep s m.1 m.2) (⟨[], [], []⟩ : TState) l1) n1 md1) l2) n2 md2) hno3
  exact fE.trans fD

/-- Jurisdiction half of the duplicate-reporting property of `tidy`. -/
theorem tidy_dup_jur_aux (v : String) (l1 l2 l3 : List (String × Metadata))
    (n1 n2 : String) (md1 md2 : Metadata)
    (h1 : md1.jurisdiction_id = v) (h2 : md2.jurisdiction_id = v)
    (hno1 : ∀ p ∈ l1, p.2.jurisdiction_id ≠ v) (hno2 : ∀ p ∈ l2, p.2.jurisdiction_id ≠ v)
    (hno3 : ∀ p ∈ l3, p.2.jurisdiction_id ≠ v) :
    (tidyFold (l1 ++ (n1, md1) :: l2 ++ (n2, md2) :: l3)).filter (isDupJurisdictionFor v)
      = [Finding.dupJurisdiction n2 v] := by
  unfold tidyFold
  rw [List.foldl_append, List.foldl_cons, List.foldl_append, List.foldl_cons]
  dsimp only
  obtain ⟨fA, cA⟩ := foldl_filter_jur_none v l1 (⟨[], [], []⟩ : TState) hno1
  have fA0 : (List.foldl (fun s m => tidyStep s m.1 m.2) (⟨[], [], []⟩ : TState) l1).findings.filter (isDupJurisdictionFor v) = [] := by
    rw [fA]
    rfl
  have cA0 : (List.foldl (fun s m => tidyStep s m.1 m.2) (⟨[], [], []⟩ : TState) l1).jurIds.contains v = false := by
    rw [cA]
    rfl
  have fB : (tidyStep (List.foldl (fun s m => tidyStep s m.1 m.2) (⟨[], [], []⟩ : TState) l1) n1 md1).findings.filter (isDupJurisdictionFor v) = [] := by
    rw [tidyStep_filter_jur, fA0, if_neg]
    · rfl
    · rintro ⟨hc, -⟩
      rw [h1, cA0] at hc
      cases hc
  have cB : (tidyStep (List.foldl (fun s m => tidyStep s m.1 m.2) (⟨[], [], []⟩ : TState) l1) n1 md1).jurIds.contains v = true := by
    rw [tidyStep_jurIds, if_neg (by rw [h1, cA0]; decide), h1, List.contains_cons]
    simp
  obtain ⟨fC, cC⟩ := foldl_filter_jur_none v l2 (tidyStep (List.foldl (fun s m => tidyStep s m.1 m.2) (⟨[], [], []⟩ : TState) l1) n1 md1) hno2
  have fC0 : (List.foldl (fun s m => tidyStep s m.1 m.2) (tidyStep (List.foldl (fun s m => tidyStep s m.1 m.2) (⟨[], [], []⟩ : TState) l1) n1 md1) l2).findings.filter (isDupJurisdictionFor v) = [] := fC.trans fB
  have cC0 : (List.foldl (fun s m => tidyStep s m.1 m.2) (tidyStep (List.foldl (fun s m => tidyStep s m.1 m.2) (⟨[], [], []⟩ : TState) l1) n1 md1) l2).jurIds.contains v = true := cC.trans cB
  have fD : (tidyStep (List.foldl (fun s m => tidyStep s m.1 m.2) (tidyStep (List.foldl (fun s m => tidyStep s m.1 m.2) (⟨[], [], []⟩ : TState) l1) n1 md1) l2) n2 md2).findings.filter (isDupJurisdictionFor v) = [Finding.dupJurisdiction n2 v] := by
    rw [tidyStep_filter_jur, fC0, if_pos ⟨by rw [h2]; exact cC0, h2⟩, h2]
    rfl
  obtain ⟨fE, -⟩ := foldl_filter_jur_none v l3 (tidyStep (List.foldl (fun s m => tidyStep s m.1 m.2) (tidyStep (List.foldl (fun s m => tidyStep s m.1 m.2) (⟨[], [], []⟩ : TState) l1) n1 md1) l2) n2 md2) hno3
  exact fE.trans fD

/-- C5.  In the `tidy` duplicate checks, when exactly two modules of the
processed sequence carry division id `v` (in that order), exactly one
duplicate-division finding for `v` is produced, attributed to the second
occurrence and never the first; and the same holds of jurisdiction ids and
duplicate-jurisdiction findings. -/
theorem tidy_duplicate_once (v : String) :
    (∀ (l1 l2 l3 : List (String × Metadata)) (n1 n2 : String) (md1 md2 : Metadata),
      md1.division_id = v → md2.division_id = v →
      (∀ p ∈ l1 ++ l2 ++ l3, p.2.division_id ≠ v) →
      (tidyFold (l1 ++ (n1, md1) :: l2 ++ (n2, md2) :: l3)).filter (isDupDivisionFor v)
        = [Finding.dupDivision n2 v])
    ∧ (∀ (l1 l2 l3 : List (String × Metadata)) (n1 n2 : String) (md1 md2 : Metadata),
      md1.jurisdiction_id = v → md2.jurisdiction_id = v →
      (∀ p ∈ l1 ++ l2 ++ l3, p.2.jurisdiction_id ≠ v) →
      (tidyFold (l1 ++ (n1, md1) :: l2 ++ (n2, md2) :: l3)).filter (isDupJurisdictionFor v)
        = [Finding.dupJurisdiction n2 v]) := by
  constructor
  · intro l1 l2 l3 n1 n2 md1 md2 h1 h2 hno
    exact tidy_dup_div_aux v l1 l2 l3 n1 n2 md1 md2 h1 h2
      (fun p hp => hno p (by simp [hp])) (fun p hp => hno p (by simp [hp]))
      (fun p hp => hno p (by simp [hp]))
  · intro l1 l2 l3 n1 n2 md1 md2 h1 h2 hno
    exact tidy_dup_jur_aux v l1 l2 l3 n1 n2 md1 md2 h1 h2
      (fun p hp => hno p (by simp [hp])) (fun p hp => hno p (by simp [hp]))
      (fun p hp => hno p (by simp [hp]))

/-- Metadata records used in the witness for C5. -/
def mdW1 : Metadata := ⟨"A", "d1", none, none, none, none, "j1"⟩

/-- Second witness record: same division id as `mdW1`, distinct
jurisdiction id. -/
def mdW2 : Metadata := ⟨"B", "d1", none, none, none, none, "j2"⟩

/-- Third and fourth witness records: distinct division ids, shared
jurisdiction id. -/
def mdW3 : Metadata := ⟨"C", "d2", none, none, none, none, "j3"⟩

/-- Fourth witness record. -/
def mdW4 : Metadata := ⟨"D", "d3", none, none, none, none, "j3"⟩

/-- Witness for C5: two modules sharing a division id produce exactly one
duplicate-division finding, attributed to the second; likewise for a shared
jurisdiction id. -/
theorem tidy_duplicate_once_witness :
    (tidyFold [("m1", mdW1), ("m2", mdW2)]).filter (isDupDivisionFor "d1")
      = [Finding.dupDivision "m2" "d1"]
    ∧ (tidyFold [("m3", mdW3), ("m4", mdW4)]).filter (isDupJurisdictionFor "j3")
      = [Finding.dupJurisdiction "m4" "j3"] :=
  ⟨(tidy_duplicate_once "d1").1 [] [] [] "m1" "m2" mdW1 mdW2 rfl rfl (by simp),
   (tidy_duplicate_once "j3").2 [] [] [] "m3" "m4" mdW3 mdW4 rfl rfl (by simp)⟩


/-- Spec phrasing of the first class-name step: strip apostrophes and
periods from the division name. -/
def specStrip (l : List Char) : List Char :=
  l.foldr (fun c acc => if c = '\x27' ∨ c = '.' then acc else c :: acc) []

/-- Spec phrasing of the second class-name step: normalize the em-dash and
the en-dash to a single dash. -/
def specDash (l : List Char) : List Char :=
  l.foldr (fun c acc => (if c = '—' ∨ c = '–' then '-' else c) :: acc) []

/-- Spec phrasing of the per-word step: capitalize each word unless it
already starts uppercase (an ASCII capital, as the code's regular
expression tests). -/
def specCapWord (w : List Char) : List Char :=
  if startsAsciiUpper w then w else pyCapitalizeW w

/-- Class-name derivation as the spec words it: strip apostrophes and
periods, normalize en-dash and em-dash to a single dash, split on spaces
and dashes, capitalize each word unless it already starts uppercase,
concatenate the words, transliterate to plain ASCII, and append the fixed
suffix word "Municipalities" when aggregating. -/
def specClassName (name : String) (aggregation : Bool) : String :=
  let words := splitOnPred (fun c => c == ' ' || c == '-') (specDash (specStrip name.data))
  let joined := (words.map specCapWord).foldr (fun w acc => String.mk w ++ acc) ""
  let cn := uniString joined
  if aggregation then cn ++ "Municipalities" else cn

/-- The spec's strip step agrees with the code's `re.sub`. -/
theorem specStrip_eq (l : List Char) : specStrip l = stripAposPeriod l := by
  induction l with
  | nil => rfl
  | cons c l ih =>
    show (if c = '\x27' ∨ c = '.' then specStrip l else c :: specStrip l)
      = stripAposPeriod (c :: l)
    rw [ih]
    show _ = List.filter (fun c => !(c == '\x27' || c == '.')) (c :: l)
    rw [List.filter_cons]
    by_cases hc : c = '\x27' ∨ c = '.'
    · rw [if_pos hc, if_neg (by rcases hc with h | h <;> simp [h])]
      rfl
    · obtain ⟨h1, h2⟩ := not_or.mp hc
      rw [if_neg hc, if_pos (by simp [h1, h2])]
      rfl

/-- The spec's dash step agrees with the code's `re.sub`. -/
theorem specDash_eq (l : List Char) : specDash l = dashNormalize l := by
  induction l with
  | nil => rfl
  | cons c l ih =>
    show (if c = '—' ∨ c = '–' then '-' else c) :: specDash l = dashNormalize (c :: l)
    rw [ih]
    show _ = (if c == '—' || c == '–' then '-' else c) :: dashNormalize l
    congr 1
    by_cases hc : c = '—' ∨ c = '–'
    · rw [if_pos hc, if_pos (by rcases hc with h | h <;> simp [h])]
    · rw [if_neg hc, if_neg (by simpa using hc)]

/-- Concatenating words one by one equals flattening them. -/
theorem foldr_append_strings (ws : List (List Char)) :
    (ws.foldr (fun w acc => String.mk w ++ acc) "") = String.mk ws.flatten := by
  induction ws with
  | nil => rfl
  | cons w ws ih =>
    show String.mk w ++ (ws.foldr (fun w acc => String.mk w ++ acc) "")
      = String.mk (w :: ws).flatten
    rw [ih]
    rfl

/-- The code's class-name computation implements the spec's wording. -/
theorem get_class_name_eq_spec (name : String) (agg : Bool) :
    get_class_name name agg = specClassName name agg := by
  unfold get_class_name specClassName
  dsimp only
  rw [specStrip_eq, specDash_eq, foldr_append_strings]
  rfl

/-- C9.  For every division and aggregation flag, the class name derived by
`get_definition` equals the spec's description: strip apostrophes and
periods, normalize long dashes, split on spaces and dashes, capitalize each
word unless it already starts uppercase, concatenate, transliterate to
plain ASCII, and append "Municipalities" when aggregating. -/
theorem class_name_rule (reg : List Division) (tns : List (String × String))
    (d : Division) (agg : Bool) (e : Expected)
    (hgd : get_definition reg tns d agg = .ok e) :
    e.class_name = specClassName d.name agg := by
  obtain ⟨t, mn, h1, h2, he⟩ := get_definition_ok_elim hgd
  subst he
  exact get_class_name_eq_spec d.name agg

/-- Witness for C9, at the country division with aggregation set. -/
theorem class_name_rule_witness :
    ∃ e : Expected, get_definition [] [] countryDiv true = .ok e
      ∧ e.class_name = specClassName countryDiv.name true := by
  refine ⟨⟨"ca", "Parliament of Canada", "CanadaMunicipalities", "", "Canada"⟩, rfl, ?_⟩
  exact class_name_rule [] [] countryDiv true _ rfl

end ScrapersCa
